import Mathlib

/-!
Shallow embedding of `verify-device-capacity` (src/main.rs).

The program writes a deterministic keyed pseudorandom byte stream to a block
device until the device reports out-of-space (errno 28), then re-reads the
device and compares it byte-for-byte against a freshly seeded generator
producing the same stream.  Bytes are modelled as `Nat`, device I/O as
explicit state machines, and the unbounded `loop`s of the source as
fuel-indexed recursion returning `Option` (`none` = fuel exhausted).
-/

/-- Modelled from the spec: the keyed stream generator (src/main.rs uses
`ChaCha12Rng` from the external `rand_chacha` crate, whose internals are not
part of this repository).  Per spec §4.2 the generator is a deterministic
pseudorandom byte stream fully determined by the 32-byte seed and the byte
position; the concrete mixing arithmetic below is an arbitrary computable
stand-in for that keyed stream. -/
def chachaStream (seed : List Nat) (pos : Nat) : Nat :=
  (seed.foldl (fun a b => (a * 131 + b + 7) % 16777213) 5381 + pos * 2654435761 + pos) % 256

/-- Generator state: the keyed byte stream determined by the seed, together
with the monotonically advancing byte position (src/main.rs line 69,
`ChaCha12Rng::from_seed` and subsequent `try_fill_bytes` calls). -/
structure ChaCha12Rng where
  stream : Nat → Nat
  pos : Nat

/-- Constructing a generator from a seed (src/main.rs line 69):
the stream is determined by the seed and the position starts at 0. -/
def ChaCha12Rng.from_seed (seed : List Nat) : ChaCha12Rng :=
  ⟨chachaStream seed, 0⟩

/-- Cloning a generator (src/main.rs line 98, `rng.clone()`): an identical,
independently owned copy of the current state. -/
def ChaCha12Rng.clone (g : ChaCha12Rng) : ChaCha12Rng := g

/-- One `try_fill_bytes` call (src/main.rs lines 215, 301): deterministically
produce the next `n` bytes of the keyed stream and advance the position.
`try_fill_bytes` on ChaCha never fails, so the model is total. -/
def ChaCha12Rng.fill (g : ChaCha12Rng) (n : Nat) : List Nat × ChaCha12Rng :=
  ((List.range n).map (fun i => g.stream (g.pos + i)), ⟨g.stream, g.pos + n⟩)

/-- First `n` bytes of a byte stream. -/
def streamTake (f : Nat → Nat) (n : Nat) : List Nat :=
  (List.range n).map f

/-- Feeding a generator a sequence of fill-lengths and collecting the
produced chunks in order. -/
def fillOutputs (g : ChaCha12Rng) : List Nat → List (List Nat)
  | [] => []
  | n :: ns =>
    (g.fill n).1 :: fillOutputs (g.fill n).2 ns

/-- Modelled from the spec: SHA-256 (src/main.rs line 133 uses the external
`sha2` crate).  Per spec §4.1 it is a pure function from the passphrase bytes
to exactly 32 bytes; the concrete arithmetic is an arbitrary computable
stand-in returning 32 bytes. -/
def sha256 (msg : List Nat) : List Nat :=
  (List.range 32).map (fun i =>
    (msg.foldl (fun a b => (a * 257 + b + 13) % 104729) 9176 + i * 97) % 256)

/-- Value of one hexadecimal digit byte (digits, upper- and lower-case
letters), as accepted by `hex::decode_to_slice` (src/main.rs line 145). -/
def hexVal (b : Nat) : Option Nat :=
  if 48 ≤ b ∧ b ≤ 57 then some (b - 48)
  else if 65 ≤ b ∧ b ≤ 70 then some (b - 55)
  else if 97 ≤ b ∧ b ≤ 102 then some (b - 87)
  else none

/-- Hex decoding of a byte string, two hex digits per output byte; `none`
exactly when some byte is not a hex digit (for even-length input), matching
`hex::decode_to_slice` on a length-checked input (src/main.rs line 145). -/
def hexDecode : List Nat → Option (List Nat)
  | [] => some []
  | [_] => none
  | b0 :: b1 :: rest =>
    match hexVal b0, hexVal b1, hexDecode rest with
    | some hi, some lo, some tl => some ((hi * 16 + lo) :: tl)
    | _, _, _ => none

/-- Command-line arguments relevant to seed resolution and phase selection
(src/main.rs lines 22-49).  Strings are modelled as their byte lists. -/
structure Args where
  seed : Option (List Nat)
  raw_seed : Option (List Nat)
  write : Bool
  read : Bool

/-- Error outcomes of `get_seed` (src/main.rs lines 125-155). -/
inductive SeedError where
  | conflicting
  | invalidLength (len : Nat)
  | invalidHex
  | randomRequiresWrite
deriving DecidableEq

/-- Seed resolution (src/main.rs lines 125-155).  `rand` is the ambient
randomness consumed by `rand::random()` in the neither-input case. -/
def get_seed (args : Args) (rand : List Nat) : Except SeedError (List Nat) :=
  match args.seed, args.raw_seed with
  | some _, some _ => .error .conflicting
  | some s, none => .ok (sha256 s)
  | none, some raw_seed =>
    if raw_seed.length ≠ 64 then .error (.invalidLength raw_seed.length)
    else
      match hexDecode raw_seed with
      | some buf => .ok buf
      | none => .error .invalidHex
  | none, none =>
    if !args.write && args.read then .error .randomRequiresWrite
    else .ok rand

/-- Mode-flag defaulting at the top of `_main` (src/main.rs lines 57-60):
if neither `--write` nor `--read` was given, both are enabled. -/
def defaultFlags (a : Args) : Args :=
  if !a.write && !a.read then { a with write := true, read := true } else a

/-- A write target (src/main.rs lines 220, 235: `d.write` and `d.sync_all`).
`write s buf` returns either `ok n` (the device accepted the first `n` bytes
of `buf`) or `error c` (`c` the raw OS error code, if any), plus the new
device state. -/
structure WDevice (σ : Type) where
  write : σ → List Nat → Except (Option Nat) Nat × σ
  sync_all : σ → σ

/-- How a `write_device` run ends (src/main.rs lines 221-246):
`success` = out-of-space (errno 28) reached, the normal termination, returning
the byte count; `noProgress` = a zero-length successful write (fatal);
`otherError` = any other write error (fatal), with the byte count. -/
inductive WriteTermination where
  | success (written : Nat)
  | noProgress (written : Nat)
  | otherError (code : Option Nat) (written : Nat)
deriving DecidableEq

/-- Outcome of draining one block (the inner `while` loop, src/main.rs
lines 219-248): either the whole block was flushed, or the run finished. -/
inductive InnerResult (σ : Type) where
  | blockDone (s : σ) (written : Nat)
  | finished (t : WriteTermination) (s : σ)
deriving DecidableEq

/-- The inner drain loop of `write_device` (src/main.rs lines 219-248):
while the remainder of the block is nonempty, call `write`; on `Ok(0)` fail
with no-progress, on `Ok(n)` advance by `n` bytes, on an error with raw OS
code 28 sync and finish successfully with the bytes written so far, on any
other error fail with the bytes written so far. -/
def writeInner {σ : Type} (dev : WDevice σ) (s : σ) (toWrite : List Nat) (written : Nat) :
    InnerResult σ :=
  match toWrite with
  | [] => .blockDone s written
  | a :: rest =>
    match dev.write s (a :: rest) with
    | (.ok n, s2) =>
      if _h : n = 0 then .finished (.noProgress written) s2
      else writeInner dev s2 ((a :: rest).drop n) (written + n)
    | (.error c, s2) =>
      if c = some 28 then .finished (.success written) (dev.sync_all s2)
      else .finished (.otherError c written) s2
termination_by toWrite.length
decreasing_by simp; omega

/-- The outer loop of `write_device` (src/main.rs lines 196-249): fill a
block-sized buffer from the generator, drain it to the device, repeat.
`fuel` bounds the number of outer iterations (`none` = fuel exhausted); the
progress reporting of lines 197-213 only writes to stderr and is omitted. -/
def write_device {σ : Type} (dev : WDevice σ) (rng : ChaCha12Rng) (s : σ)
    (blockSize : Nat) (written : Nat) : Nat → Option (WriteTermination × σ)
  | 0 => none
  | fuel + 1 =>
    match writeInner dev s (rng.fill blockSize).1 written with
    | .finished t s2 => some (t, s2)
    | .blockDone s2 written2 =>
      write_device dev (rng.fill blockSize).2 s2 blockSize written2 fuel

/-- A read source (src/main.rs line 286, `d.read`): `read s n` returns the
bytes read (at most `n`; `[]` is clean end-of-device) or an error, plus the
new device state. -/
structure RDevice (σ : Type) where
  read : σ → Nat → Except (Option Nat) (List Nat) × σ

/-- How a `read_device` run ends (src/main.rs lines 286-314): `success` =
zero-length read, the clean end of the device, with total bytes read;
`mismatch offset deviceByte expectedByte` = verification failure at the given
absolute offset; `unreachableNoMismatch` = the guarded line-311 branch where
unequal buffers yielded no differing byte; `readError` = an I/O error. -/
inductive ReadTermination where
  | success (readBytes : Nat)
  | mismatch (offset deviceByte expectedByte : Nat)
  | unreachableNoMismatch (readBytes : Nat)
  | readError (code : Option Nat) (readBytes : Nat)
deriving DecidableEq

/-- The mismatch scan (src/main.rs lines 304-310): first index (offset by
`k`) at which the two buffers differ, with the two differing bytes. -/
def firstDiff : List Nat → List Nat → Nat → Option (Nat × Nat × Nat)
  | a :: as, b :: bs, k => if a ≠ b then some (k, a, b) else firstDiff as bs (k + 1)
  | _, _, _ => none

/-- The loop of `read_device` (src/main.rs lines 267-315): read a chunk; a
zero-length read terminates successfully with the total read; otherwise
generate the same number of bytes from the generator and compare; on unequal
buffers scan for the first differing byte and fail with its absolute offset
and the two byte values (lines 303-311); otherwise advance.  `fuel` bounds
the iterations; stderr progress reporting (lines 268-284) is omitted. -/
def read_device {σ : Type} (dev : RDevice σ) (rng : ChaCha12Rng) (s : σ)
    (blockSize : Nat) (readBytes : Nat) : Nat → Option ReadTermination
  | 0 => none
  | fuel + 1 =>
    match dev.read s blockSize with
    | (.error c, _) => some (.readError c readBytes)
    | (.ok [], _) => some (.success readBytes)
    | (.ok (b :: chunk), s2) =>
      if (b :: chunk) ≠ (rng.fill (b :: chunk).length).1 then
        match firstDiff (b :: chunk) (rng.fill (b :: chunk).length).1 0 with
        | some (i, x, y) => some (.mismatch (readBytes + i) x y)
        | none => some (.unreachableNoMismatch readBytes)
      else
        read_device dev (rng.fill (b :: chunk).length).2 s2 blockSize
          (readBytes + (b :: chunk).length) fuel

/-- State of a simulated device on the write side: the bytes stored so far
(written sequentially from offset 0) and whether `sync_all` has been
performed. -/
structure SimDisk where
  data : List Nat
  synced : Bool
deriving DecidableEq

/-- Write call of a simulated fixed-capacity device: once `cap` bytes are
stored, respond with `endResp`; below capacity, accept as many bytes as fit
(at most the remaining capacity), a partial write when the buffer straddles
the end. -/
def capWrite (cap : Nat) (endResp : Except (Option Nat) Nat) (st : SimDisk)
    (buf : List Nat) : Except (Option Nat) Nat × SimDisk :=
  if cap ≤ st.data.length then (endResp, st)
  else
    (.ok (min buf.length (cap - st.data.length)),
      { st with data := st.data ++ buf.take (min buf.length (cap - st.data.length)) })

/-- A simulated fixed-capacity write target with a chosen at-capacity
response. -/
def capDevice (cap : Nat) (endResp : Except (Option Nat) Nat) : WDevice SimDisk :=
  ⟨capWrite cap endResp, fun st => { st with synced := true }⟩

/-- The realistic simulated block device: writes past capacity fail with the
platform out-of-space code, errno 28. -/
def blockDevice (cap : Nat) : WDevice SimDisk :=
  capDevice cap (.error (some 28))

/-- The at-capacity responses under which `capWrite` makes no further
progress: a zero-length successful write or an error. -/
def IsEnd (r : Except (Option Nat) Nat) : Prop :=
  r = .ok 0 ∨ ∃ c, r = .error c

/-- The `InnerResult` produced when the drain loop meets the at-capacity
response `r` with `w` bytes written and device state `st`. -/
def capFinish (r : Except (Option Nat) Nat) (w : Nat) (st : SimDisk) : InnerResult SimDisk :=
  match r with
  | .ok _ => .finished (.noProgress w) st
  | .error c =>
    if c = some 28 then .finished (.success w) { st with synced := true }
    else .finished (.otherError c w) st

/-- The `WriteTermination` of a full `write_device` run against `capDevice
cap r`. -/
def capLoopResult (r : Except (Option Nat) Nat) (cap : Nat) : WriteTermination :=
  match r with
  | .ok _ => .noProgress cap
  | .error c => if c = some 28 then .success cap else .otherError c cap

/-- The final `SimDisk` of a full `write_device` run against `capDevice cap
r` fed the stream `f`: the first `cap` stream bytes, synced exactly on the
errno-28 path. -/
def capLoopFinal (r : Except (Option Nat) Nat) (f : Nat → Nat) (cap : Nat) : SimDisk :=
  match r with
  | .ok _ => ⟨streamTake f cap, false⟩
  | .error c => if c = some 28 then ⟨streamTake f cap, true⟩ else ⟨streamTake f cap, false⟩

/-- Write call of a simulated partially-accepting device with unbounded
capacity: it accepts `f st buf` bytes of each request and logs them. -/
def chunkWrite (f : List Nat → List Nat → Nat) (st : List Nat) (buf : List Nat) :
    Except (Option Nat) Nat × List Nat :=
  (.ok (f st buf), st ++ buf.take (f st buf))

/-- A simulated partially-accepting write target. -/
def chunkDevice (f : List Nat → List Nat → Nat) : WDevice (List Nat) :=
  ⟨chunkWrite f, id⟩

/-- State of a simulated device on the read side: its contents and the
current read position. -/
structure SimReader where
  data : List Nat
  pos : Nat
deriving DecidableEq

/-- Read call of the simulated device: return up to `blockSize` bytes from
the current position ([] at the end) and advance. -/
def simRead (st : SimReader) (blockSize : Nat) :
    Except (Option Nat) (List Nat) × SimReader :=
  (.ok ((st.data.drop st.pos).take blockSize),
    { st with pos := st.pos + ((st.data.drop st.pos).take blockSize).length })

/-- The simulated read source. -/
def readerDevice : RDevice SimReader :=
  ⟨simRead⟩

/-- The byte-count post-condition failures of `_main` (src/main.rs lines
100-106 and 113-118), each carrying the two conflicting counts. -/
inductive MainError where
  | writeCountMismatch (written disk_size : Nat)
  | readCountMismatch (readBytes disk_size : Nat)
deriving DecidableEq

/-- The byte-count post-condition checks of `_main` (src/main.rs lines
97-122): if the write phase ran and its count differs from the measured disk
size, fail naming the two counts; then likewise for the read phase; else
succeed (exit 0). -/
def mainChecks (writeFlag readFlag : Bool) (written readBytes disk_size : Nat) :
    Except MainError Unit :=
  if writeFlag = true ∧ written ≠ disk_size then
    .error (.writeCountMismatch written disk_size)
  else if readFlag = true ∧ readBytes ≠ disk_size then
    .error (.readCountMismatch readBytes disk_size)
  else .ok ()

/-! ### Basic lemmas about the generator and stream prefixes -/

theorem streamTake_length (f : Nat → Nat) (n : Nat) : (streamTake f n).length = n := by
  simp [streamTake]

theorem streamTake_zero (f : Nat → Nat) : streamTake f 0 = [] := rfl

theorem streamTake_add (f : Nat → Nat) (a b : Nat) :
    streamTake f (a + b) = streamTake f a ++ (List.range b).map (fun i => f (a + i)) := by
  simp only [streamTake, List.range_add, List.map_append, List.map_map]
  rfl

theorem fill_fst (g : ChaCha12Rng) (n : Nat) :
    (g.fill n).1 = (List.range n).map (fun i => g.stream (g.pos + i)) := rfl

theorem fill_snd (g : ChaCha12Rng) (n : Nat) :
    (g.fill n).2 = ⟨g.stream, g.pos + n⟩ := rfl

theorem fillOutputs_flatten (lens : List Nat) :
    ∀ (f : Nat → Nat) (p : Nat),
      (fillOutputs ⟨f, p⟩ lens).flatten = (List.range lens.sum).map (fun i => f (p + i)) := by
  induction lens with
  | nil => intro f p; simp [fillOutputs]
  | cons n ns ih =>
    intro f p
    simp only [fillOutputs, ChaCha12Rng.fill, List.flatten_cons, List.sum_cons]
    rw [ih f (p + n), List.range_add, List.map_append, List.map_map]
    congr 1
    apply List.map_congr_left
    intro i _
    simp [Function.comp, Nat.add_assoc]

/-- C1: for every 32-byte seed, the generator instance used by the write
phase (`rng.clone()` of the generator built at src/main.rs line 69) and the
generator instance used by the read phase are initialized identically from
that seed, and when fed equal sequences of fill-lengths they produce
byte-identical output streams; moreover the concatenated output is exactly
the keyed-stream prefix of the total requested length. -/
theorem C1_two_run_determinism (seed : List Nat) (lens : List Nat) :
    ChaCha12Rng.clone (ChaCha12Rng.from_seed seed) = ChaCha12Rng.from_seed seed
    ∧ fillOutputs (ChaCha12Rng.clone (ChaCha12Rng.from_seed seed)) lens
        = fillOutputs (ChaCha12Rng.from_seed seed) lens
    ∧ (fillOutputs (ChaCha12Rng.from_seed seed) lens).flatten
        = streamTake (chachaStream seed) lens.sum := by
  refine ⟨rfl, rfl, ?_⟩
  show (fillOutputs ⟨chachaStream seed, 0⟩ lens).flatten = _
  rw [fillOutputs_flatten]
  simp [streamTake]

/-! ### The drain loop and the simulated capacity device -/

theorem writeInner_nil {σ : Type} (dev : WDevice σ) (s : σ) (w : Nat) :
    writeInner dev s [] w = .blockDone s w := by
  rw [writeInner]

theorem writeInner_cons {σ : Type} (dev : WDevice σ) (s : σ) (a : Nat) (rest : List Nat)
    (w : Nat) :
    writeInner dev s (a :: rest) w =
      match dev.write s (a :: rest) with
      | (.ok n, s2) =>
        if _h : n = 0 then .finished (.noProgress w) s2
        else writeInner dev s2 ((a :: rest).drop n) (w + n)
      | (.error c, s2) =>
        if c = some 28 then .finished (.success w) (dev.sync_all s2)
        else .finished (.otherError c w) s2 := by
  rw [writeInner]

theorem capDevice_write (cap : Nat) (r : Except (Option Nat) Nat) :
    (capDevice cap r).write = capWrite cap r := rfl

theorem capDevice_sync (cap : Nat) (r : Except (Option Nat) Nat) (st : SimDisk) :
    (capDevice cap r).sync_all st = { st with synced := true } := rfl

theorem writeInner_cap_full (cap : Nat) (r : Except (Option Nat) Nat) (st : SimDisk)
    (toWrite : List Nat) (w : Nat) (hr : IsEnd r) (hfull : cap ≤ st.data.length)
    (hne : toWrite ≠ []) :
    writeInner (capDevice cap r) st toWrite w = capFinish r w st := by
  obtain ⟨a, rest, rfl⟩ := List.exists_cons_of_ne_nil hne
  rw [writeInner_cons]
  rcases hr with rfl | ⟨c, rfl⟩
  · simp [capDevice_write, capDevice_sync, capWrite, hfull, capFinish]
  · by_cases hc : c = some 28
    · subst hc
      simp [capDevice_write, capDevice_sync, capWrite, hfull, capFinish]
    · simp [capDevice_write, capDevice_sync, capWrite, hfull, capFinish, hc]

theorem writeInner_cap_straddle (cap : Nat) (r : Except (Option Nat) Nat) (st : SimDisk)
    (toWrite : List Nat) (w : Nat) (hr : IsEnd r) (h1 : st.data.length < cap)
    (h2 : cap < st.data.length + toWrite.length) :
    writeInner (capDevice cap r) st toWrite w
      = capFinish r (w + (cap - st.data.length))
          ⟨st.data ++ toWrite.take (cap - st.data.length), st.synced⟩ := by
  have hne : toWrite ≠ [] := by
    intro h
    rw [h] at h2
    simp at h2
    omega
  obtain ⟨a, rest, rfl⟩ := List.exists_cons_of_ne_nil hne
  have hbridge : (a :: rest).length = rest.length + 1 := by simp
  rw [writeInner_cons]
  have hlen : cap - st.data.length < (a :: rest).length := by
    simp at h2 ⊢
    omega
  have hmin : min (a :: rest).length (cap - st.data.length) = cap - st.data.length := by
    omega
  simp only [capDevice_write, capWrite, if_neg (by omega : ¬ cap ≤ st.data.length), hmin]
  rw [dif_neg (by omega : ¬ cap - st.data.length = 0)]
  rw [writeInner_cap_full cap r _ _ _ hr (by simp; omega)
    (by
      intro h
      have hlen2 := congrArg List.length h
      simp at hlen2
      omega)]

theorem writeInner_cap_fits (cap : Nat) (r : Except (Option Nat) Nat) (st : SimDisk)
    (toWrite : List Nat) (w : Nat) (h : st.data.length + toWrite.length ≤ cap) :
    writeInner (capDevice cap r) st toWrite w
      = .blockDone ⟨st.data ++ toWrite, st.synced⟩ (w + toWrite.length) := by
  cases toWrite with
  | nil => simp [writeInner_nil]
  | cons a rest =>
    have hbridge : (a :: rest).length = rest.length + 1 := by simp
    rw [writeInner_cons]
    have hmin : min (a :: rest).length (cap - st.data.length) = (a :: rest).length := by
      omega
    simp only [capDevice_write, capWrite, if_neg (by omega : ¬ cap ≤ st.data.length), hmin]
    rw [dif_neg (by omega : ¬ (a :: rest).length = 0)]
    rw [List.drop_length, List.take_length, writeInner_nil]

theorem write_device_cap (cap bs : Nat) (r : Except (Option Nat) Nat) (hr : IsEnd r)
    (hbs : 1 ≤ bs) :
    ∀ (fuel : Nat) (f : Nat → Nat) (w : Nat), w ≤ cap → cap - w < fuel * bs →
      write_device (capDevice cap r) ⟨f, w⟩ ⟨streamTake f w, false⟩ bs w fuel
        = some (capLoopResult r cap, capLoopFinal r f cap) := by
  intro fuel
  induction fuel with
  | zero =>
    intro f w hw hfuel
    simp at hfuel
  | succ fuel ih =>
    intro f w hw hfuel
    have hbuf1 : ((⟨f, w⟩ : ChaCha12Rng).fill bs).1 = (List.range bs).map (fun i => f (w + i)) :=
      rfl
    have hbuf2 : ((⟨f, w⟩ : ChaCha12Rng).fill bs).2 = (⟨f, w + bs⟩ : ChaCha12Rng) := rfl
    have hlenw : (streamTake f w).length = w := streamTake_length f w
    have hmul : (fuel + 1) * bs = fuel * bs + bs := by ring
    rw [write_device]
    by_cases hcap : cap ≤ w
    · rw [writeInner_cap_full cap r _ _ _ hr
        (by show cap ≤ (streamTake f w).length; omega)
        (by rw [hbuf1]; simp; omega)]
      have hwc : w = cap := le_antisymm hw hcap
      subst hwc
      rcases hr with rfl | ⟨c, rfl⟩
      · simp [capFinish, capLoopResult, capLoopFinal]
      · by_cases hc : c = some 28
        · subst hc
          simp [capFinish, capLoopResult, capLoopFinal]
        · simp [capFinish, capLoopResult, capLoopFinal, hc]
    · by_cases h2 : w + bs ≤ cap
      · rw [writeInner_cap_fits cap r _ _ _ (by rw [hbuf1]; simp; omega)]
        simp only [hbuf1, hbuf2]
        have hdata : streamTake f w ++ (List.range bs).map (fun i => f (w + i))
            = streamTake f (w + bs) := (streamTake_add f w bs).symm
        have hblen : ((List.range bs).map (fun i => f (w + i))).length = bs := by simp
        rw [hdata, hblen]
        exact ih f (w + bs) h2 (by omega)
      · rw [writeInner_cap_straddle cap r _ _ _ hr
          (by show (streamTake f w).length < cap; omega)
          (by rw [hbuf1]; simp; omega)]
        have htake : ((List.range bs).map (fun i => f (w + i))).take (cap - (streamTake f w).length)
            = (List.range (cap - w)).map (fun i => f (w + i)) := by
          rw [hlenw, ← List.map_take, List.take_range,
            Nat.min_eq_left (by omega : cap - w ≤ bs)]
        rw [hbuf1, htake, hlenw]
        have hdata : streamTake f w ++ (List.range (cap - w)).map (fun i => f (w + i))
            = streamTake f cap := by
          rw [← streamTake_add]
          congr 1
          omega
        rw [hdata]
        have hwcap : w + (cap - w) = cap := by omega
        rw [hwcap]
        rcases hr with rfl | ⟨c, rfl⟩
        · simp [capFinish, capLoopResult, capLoopFinal]
        · by_cases hc : c = some 28
          · subst hc
            simp [capFinish, capLoopResult, capLoopFinal]
          · simp [capFinish, capLoopResult, capLoopFinal, hc]

/-! ### The read loop and the simulated reader -/

theorem read_device_eof {σ : Type} (dev : RDevice σ) (rng : ChaCha12Rng) (s : σ)
    (bs rb fuel : Nat) (s2 : σ) (hread : dev.read s bs = (.ok [], s2)) :
    read_device dev rng s bs rb (fuel + 1) = some (.success rb) := by
  rw [read_device, hread]

theorem read_device_match_step {σ : Type} (dev : RDevice σ) (rng : ChaCha12Rng) (s : σ)
    (bs rb fuel : Nat) (chunk : List Nat) (s2 : σ)
    (hread : dev.read s bs = (.ok chunk, s2)) (hne : chunk ≠ [])
    (heq : chunk = (rng.fill chunk.length).1) :
    read_device dev rng s bs rb (fuel + 1)
      = read_device dev (rng.fill chunk.length).2 s2 bs (rb + chunk.length) fuel := by
  obtain ⟨c, cs, rfl⟩ := List.exists_cons_of_ne_nil hne
  rw [read_device, hread]
  simp only [if_neg (not_not_intro heq)]

theorem read_device_diff_step {σ : Type} (dev : RDevice σ) (rng : ChaCha12Rng) (s : σ)
    (bs rb fuel : Nat) (chunk : List Nat) (s2 : σ) (i x y : Nat)
    (hread : dev.read s bs = (.ok chunk, s2)) (hne : chunk ≠ [])
    (hneq : chunk ≠ (rng.fill chunk.length).1)
    (hfd : firstDiff chunk (rng.fill chunk.length).1 0 = some (i, x, y)) :
    read_device dev rng s bs rb (fuel + 1) = some (.mismatch (rb + i) x y) := by
  obtain ⟨c, cs, rfl⟩ := List.exists_cons_of_ne_nil hne
  rw [read_device, hread]
  simp only [if_pos hneq, hfd]

theorem streamTake_drop (f : Nat → Nat) (N p : Nat) (h : p ≤ N) :
    (streamTake f N).drop p = (List.range (N - p)).map (fun i => f (p + i)) := by
  conv_lhs => rw [show N = p + (N - p) by omega, streamTake_add]
  exact List.drop_left' (streamTake_length f p)

theorem readerDevice_read_eq (st : SimReader) (bs : Nat) :
    readerDevice.read st bs
      = (.ok ((st.data.drop st.pos).take bs),
          ⟨st.data, st.pos + ((st.data.drop st.pos).take bs).length⟩) := rfl

theorem reader_chunk (f : Nat → Nat) (N p bs : Nat) (h : p ≤ N) :
    ((streamTake f N).drop p).take bs
      = (List.range (min bs (N - p))).map (fun i => f (p + i)) := by
  rw [streamTake_drop f N p h, ← List.map_take, List.take_range]

theorem read_device_cap (bs : Nat) (hbs : 1 ≤ bs) (N : Nat) :
    ∀ (fuel : Nat) (f : Nat → Nat) (p : Nat), p ≤ N → N - p + bs ≤ fuel * bs →
      read_device readerDevice ⟨f, p⟩ ⟨streamTake f N, p⟩ bs p fuel
        = some (.success N) := by
  intro fuel
  induction fuel with
  | zero =>
    intro f p hp hfuel
    simp at hfuel
    omega
  | succ fuel ih =>
    intro f p hp hfuel
    have hmul : (fuel + 1) * bs = fuel * bs + bs := by ring
    have hchunk : ((streamTake f N).drop p).take bs
        = (List.range (min bs (N - p))).map (fun i => f (p + i)) := reader_chunk f N p bs hp
    have hread : readerDevice.read ⟨streamTake f N, p⟩ bs
        = (.ok ((List.range (min bs (N - p))).map (fun i => f (p + i))),
            ⟨streamTake f N, p + min bs (N - p)⟩) := by
      show ((.ok (((streamTake f N).drop p).take bs),
        (⟨streamTake f N, p + (((streamTake f N).drop p).take bs).length⟩ : SimReader))
          : Except (Option Nat) (List Nat) × SimReader) = _
      rw [hchunk]
      simp
    by_cases hpN : N ≤ p
    · have hchunk0 : (List.range (min bs (N - p))).map (fun i => f (p + i)) = [] := by
        rw [show N - p = 0 by omega]
        simp
      rw [read_device_eof readerDevice ⟨f, p⟩ _ bs p fuel _ (by rw [hread, hchunk0])]
      rw [show p = N by omega]
    · have hfuel1 : 1 ≤ fuel := by
        rcases Nat.eq_zero_or_pos fuel with h0 | h1
        · rw [h0] at hfuel
          simp at hfuel
          omega
        · exact h1
      have hmulge : bs ≤ fuel * bs := Nat.le_mul_of_pos_left bs hfuel1
      have hne : (List.range (min bs (N - p))).map (fun i => f (p + i)) ≠ [] := by
        simp
        omega
      have hlen : ((List.range (min bs (N - p))).map (fun i => f (p + i))).length
          = min bs (N - p) := by simp
      have heq : (List.range (min bs (N - p))).map (fun i => f (p + i))
          = ((⟨f, p⟩ : ChaCha12Rng).fill
              ((List.range (min bs (N - p))).map (fun i => f (p + i))).length).1 := by
        rw [hlen]
        rfl
      rw [read_device_match_step readerDevice ⟨f, p⟩ _ bs p fuel _ _ hread hne heq]
      rw [hlen]
      exact ih f (p + min bs (N - p)) (by omega) (by omega)

/-- C2: for every seed and every simulated device of capacity N whose
contents are not altered between phases, the write phase followed by the
read phase succeeds: `write_device` returns N (with the device synced and
holding the N-byte stream prefix), `read_device` reaches a zero-length read
and returns N with no mismatch, and the bytes written equal the bytes read
(both are the N-byte keyed-stream prefix). -/
theorem C2_write_then_verify (seed : List Nat) (N bs fw fr : Nat) (hbs : 1 ≤ bs)
    (hfw : N < fw * bs) (hfr : N + bs ≤ fr * bs) :
    write_device (blockDevice N) (ChaCha12Rng.from_seed seed) ⟨[], false⟩ bs 0 fw
      = some (.success N, ⟨streamTake (chachaStream seed) N, true⟩)
    ∧ read_device readerDevice (ChaCha12Rng.from_seed seed)
        ⟨streamTake (chachaStream seed) N, 0⟩ bs 0 fr = some (.success N) := by
  constructor
  · have h := write_device_cap N bs (.error (some 28)) (Or.inr ⟨some 28, rfl⟩) hbs fw
      (chachaStream seed) 0 (by omega) (by omega)
    simpa [blockDevice, ChaCha12Rng.from_seed, capLoopResult, capLoopFinal,
      streamTake_zero] using h
  · have h := read_device_cap bs hbs N fr (chachaStream seed) 0 (by omega) (by omega)
    simpa [ChaCha12Rng.from_seed] using h

theorem C2_witness :
    (1 ≤ 4 ∧ 10 < 3 * 4 ∧ 10 + 4 ≤ 4 * 4)
    ∧ (write_device (blockDevice 10) (ChaCha12Rng.from_seed [1, 2]) ⟨[], false⟩ 4 0 3
        = some (.success 10, ⟨streamTake (chachaStream [1, 2]) 10, true⟩)
      ∧ read_device readerDevice (ChaCha12Rng.from_seed [1, 2])
          ⟨streamTake (chachaStream [1, 2]) 10, 0⟩ 4 0 4 = some (.success 10)) :=
  ⟨⟨by decide, by decide, by decide⟩,
    C2_write_then_verify [1, 2] 10 4 3 4 (by decide) (by decide) (by decide)⟩

/-! ### Mismatch localization -/

theorem streamTake_getElem (f : Nat → Nat) (n q : Nat) (h : q < n) :
    (streamTake f n)[q]? = some (f q) := by
  simp [streamTake, List.getElem?_range, h]

theorem setStream_getElem (f : Nat → Nat) (N K v q : Nat) (hq : q < N) :
    ((streamTake f N).set K v)[q]? = some (if q = K then v else f q) := by
  by_cases hqK : q = K
  · subst hqK
    rw [List.getElem?_set_eq_of_lt v (by rw [streamTake_length]; exact hq)]
    simp
  · rw [List.getElem?_set_ne (fun h => hqK h.symm), streamTake_getElem f N q hq,
      if_neg hqK]

theorem chunk_getElem (D : List Nat) (p bs j : Nat) (hj : j < bs) :
    ((D.drop p).take bs)[j]? = D[p + j]? := by
  rw [List.getElem?_take_of_lt hj, List.getElem?_drop]

theorem rngChunk_getElem (f : Nat → Nat) (p m j : Nat) (hj : j < m) :
    ((List.range m).map (fun i => f (p + i)))[j]? = some (f (p + j)) := by
  simp [List.getElem?_range, hj]

theorem firstDiff_spec : ∀ (i : Nat) (a b : List Nat) (k x y : Nat),
    (∀ j, j < i → a[j]? = b[j]?) → a[i]? = some x → b[i]? = some y → x ≠ y →
    firstDiff a b k = some (k + i, x, y) := by
  intro i
  induction i with
  | zero =>
    intro a b k x y hpre ha hb hxy
    cases a with
    | nil => simp at ha
    | cons a0 as =>
      cases b with
      | nil => simp at hb
      | cons b0 bs =>
        simp at ha hb
        subst ha
        subst hb
        simp [firstDiff, hxy]
  | succ i ih =>
    intro a b k x y hpre ha hb hxy
    cases a with
    | nil => simp at ha
    | cons a0 as =>
      cases b with
      | nil => simp at hb
      | cons b0 bs =>
        have h0 : a0 = b0 := by
          have := hpre 0 (by omega)
          simpa using this
        subst h0
        rw [firstDiff, if_neg (by simp)]
        rw [show k + (i + 1) = (k + 1) + i by omega]
        apply ih as bs (k + 1) x y
        · intro j hj
          have := hpre (j + 1) (by omega)
          simpa using this
        · simpa using ha
        · simpa using hb
        · exact hxy

theorem firstDiff_not_none : ∀ (a b : List Nat) (k : Nat), a.length = b.length →
    a ≠ b → firstDiff a b k ≠ none := by
  intro a
  induction a with
  | nil =>
    intro b k hlen hne
    cases b with
    | nil => exact absurd rfl hne
    | cons b0 bs => simp at hlen
  | cons a0 as ih =>
    intro b k hlen hne
    cases b with
    | nil => simp at hlen
    | cons b0 bs =>
      rw [firstDiff]
      by_cases h0 : a0 = b0
      · subst h0
        rw [if_neg (by simp)]
        apply ih bs (k + 1) (by simpa using hlen)
        intro h
        exact hne (by rw [h])
      · rw [if_pos h0]
        simp

theorem read_device_flip (bs : Nat) (hbs : 1 ≤ bs) (N K v : Nat) (hKN : K < N) :
    ∀ (fuel : Nat) (f : Nat → Nat) (p : Nat), p ≤ K → v ≠ f K → K - p < fuel * bs →
      read_device readerDevice ⟨f, p⟩ ⟨(streamTake f N).set K v, p⟩ bs p fuel
        = some (.mismatch K v (f K)) := by
  intro fuel
  induction fuel with
  | zero =>
    intro f p hp hv hfuel
    simp at hfuel
  | succ fuel ih =>
    intro f p hp hv hfuel
    have hmul : (fuel + 1) * bs = fuel * bs + bs := by ring
    have hDlen : ((streamTake f N).set K v).length = N := by
      simp [streamTake_length]
    have hmlen : (((((streamTake f N).set K v)).drop p).take bs).length
        = min bs (N - p) := by
      simp [hDlen]
    have hne : ((((streamTake f N).set K v)).drop p).take bs ≠ [] := by
      intro h
      rw [h] at hmlen
      simp at hmlen
      omega
    by_cases hterm : K < p + min bs (N - p)
    · have hKp : K - p < min bs (N - p) := by omega
      have hchK : (((((streamTake f N).set K v)).drop p).take bs)[K - p]? = some v := by
        rw [chunk_getElem _ p bs (K - p) (by omega), show p + (K - p) = K by omega,
          setStream_getElem f N K v K hKN]
        simp
      have hrK : ((List.range (min bs (N - p))).map (fun i => f (p + i)))[K - p]?
          = some (f K) := by
        rw [rngChunk_getElem f p _ (K - p) hKp, show p + (K - p) = K by omega]
      have hfill : ((⟨f, p⟩ : ChaCha12Rng).fill
            (((((streamTake f N).set K v)).drop p).take bs).length).1
          = (List.range (min bs (N - p))).map (fun i => f (p + i)) := by
        rw [hmlen]
        rfl
      have hpre : ∀ j, j < K - p →
          (((((streamTake f N).set K v)).drop p).take bs)[j]?
            = ((List.range (min bs (N - p))).map (fun i => f (p + i)))[j]? := by
        intro j hj
        rw [chunk_getElem _ p bs j (by omega), rngChunk_getElem f p _ j (by omega),
          setStream_getElem f N K v (p + j) (by omega), if_neg (by omega)]
      have hfd : firstDiff (((((streamTake f N).set K v)).drop p).take bs)
          ((List.range (min bs (N - p))).map (fun i => f (p + i))) 0
          = some (0 + (K - p), v, f K) :=
        firstDiff_spec (K - p) _ _ 0 v (f K) hpre hchK hrK hv
      have hneq : ((((streamTake f N).set K v)).drop p).take bs
          ≠ ((⟨f, p⟩ : ChaCha12Rng).fill
              (((((streamTake f N).set K v)).drop p).take bs).length).1 := by
        rw [hfill]
        intro h
        rw [h] at hchK
        exact hv (Option.some.inj (hchK.symm.trans hrK))
      rw [read_device_diff_step readerDevice ⟨f, p⟩ _ bs p fuel _ _ (0 + (K - p)) v (f K)
        rfl hne hneq (by rw [hfill]; exact hfd)]
      rw [show p + (0 + (K - p)) = K by omega]
    · have hmbs : min bs (N - p) = bs := by omega
      have hcheq : ((((streamTake f N).set K v)).drop p).take bs
          = ((⟨f, p⟩ : ChaCha12Rng).fill
              (((((streamTake f N).set K v)).drop p).take bs).length).1 := by
        rw [hmlen]
        show _ = (List.range (min bs (N - p))).map (fun i => f (p + i))
        apply List.ext_getElem?
        intro j
        by_cases hj : j < min bs (N - p)
        · rw [chunk_getElem _ p bs j (by omega), rngChunk_getElem f p _ j hj,
            setStream_getElem f N K v (p + j) (by omega), if_neg (by omega)]
        · rw [List.getElem?_eq_none (by rw [hmlen]; omega),
            List.getElem?_eq_none (by simp; omega)]
      rw [read_device_match_step readerDevice ⟨f, p⟩ _ bs p fuel _ _ rfl hne hcheq]
      rw [hmlen]
      have := ih f (p + min bs (N - p)) (by omega) hv (by omega)
      exact this

/-- C3: for every simulated device whose stored bytes equal the expected
keyed stream except at a single flipped byte at absolute offset K,
`read_device` fails with an error reporting exactly offset K (bytes read so
far plus the first differing in-chunk index), the byte found on the device,
and the expected stream byte. -/
theorem C3_mismatch_localization (seed : List Nat) (N K v bs fuel : Nat) (hbs : 1 ≤ bs)
    (hKN : K < N) (hv : v ≠ chachaStream seed K) (hfuel : K < fuel * bs) :
    read_device readerDevice (ChaCha12Rng.from_seed seed)
        ⟨(streamTake (chachaStream seed) N).set K v, 0⟩ bs 0 fuel
      = some (.mismatch K v (chachaStream seed K)) := by
  have h := read_device_flip bs hbs N K v hKN fuel (chachaStream seed) 0 (by omega) hv
    (by omega)
  simpa [ChaCha12Rng.from_seed] using h

theorem C3_witness :
    (1 ≤ 4 ∧ 2 < 6 ∧ 300 ≠ chachaStream [3] 2 ∧ 2 < 2 * 4)
    ∧ read_device readerDevice (ChaCha12Rng.from_seed [3])
        ⟨(streamTake (chachaStream [3]) 6).set 2 300, 0⟩ 4 0 2
      = some (.mismatch 2 300 (chachaStream [3] 2)) :=
  ⟨⟨by decide, by decide, by decide, by decide⟩,
    C3_mismatch_localization [3] 6 2 300 4 2 (by decide) (by decide) (by decide) (by decide)⟩

/-- C8: in `read_device`, whenever the device chunk and the generated chunk
of equal length compare unequal, the byte-by-byte scan always finds a
differing index, so the trailing internal-invariant branch (reporting that no
mismatching byte could be found) is unreachable: no run of `read_device`, on
any device, ever returns it. -/
theorem C8_unreachable_branch {σ : Type} (dev : RDevice σ) (rng : ChaCha12Rng) (s : σ)
    (bs rb fuel rB : Nat) :
    read_device dev rng s bs rb fuel ≠ some (.unreachableNoMismatch rB) := by
  induction fuel generalizing rng s rb with
  | zero => simp [read_device]
  | succ fuel ih =>
    rw [read_device]
    rcases hread : dev.read s bs with ⟨res, s2⟩
    rcases res with c | chunk
    · simp
    · rcases chunk with _ | ⟨b, cs⟩
      · simp
      · by_cases hb : (b :: cs) ≠ (rng.fill (b :: cs).length).1
        · simp only [if_pos hb]
          have hlen : (b :: cs).length = ((rng.fill (b :: cs).length).1).length := by
            simp [ChaCha12Rng.fill]
          have hfd := firstDiff_not_none (b :: cs) ((rng.fill (b :: cs).length).1) 0 hlen hb
          rcases hopt : firstDiff (b :: cs) ((rng.fill (b :: cs).length).1) 0
            with _ | ⟨i, x, y⟩
          · exact absurd hopt hfd
          · simp
        · simp only [if_neg hb]
          exact ih _ _ _

theorem C8_witness :
    read_device readerDevice (ChaCha12Rng.from_seed []) ⟨[], 0⟩ 1 0 1
      ≠ some (.unreachableNoMismatch 0) :=
  C8_unreachable_branch readerDevice (ChaCha12Rng.from_seed []) ⟨[], 0⟩ 1 0 1 0

/-! ### Partial writes and the characterization of successful termination -/

theorem writeInner_chunk (f : List Nat → List Nat → Nat)
    (hf1 : ∀ s b, b ≠ [] → 1 ≤ f s b) (hf2 : ∀ s b, f s b ≤ b.length) :
    ∀ (n : Nat) (toWrite st : List Nat) (w : Nat), toWrite.length ≤ n →
      writeInner (chunkDevice f) st toWrite w
        = .blockDone (st ++ toWrite) (w + toWrite.length) := by
  intro n
  induction n with
  | zero =>
    intro toWrite st w hn
    have h0 : toWrite = [] := List.eq_nil_of_length_eq_zero (by omega)
    subst h0
    simp [writeInner_nil]
  | succ n ih =>
    intro toWrite st w hn
    cases toWrite with
    | nil => simp [writeInner_nil]
    | cons a rest =>
      have hbridge : (a :: rest).length = rest.length + 1 := by simp
      rw [writeInner_cons]
      have hdw : (chunkDevice f).write st (a :: rest)
          = (.ok (f st (a :: rest)), st ++ (a :: rest).take (f st (a :: rest))) := rfl
      have hne0 : ¬ f st (a :: rest) = 0 := by
        have := hf1 st (a :: rest) (by simp)
        omega
      have hle := hf2 st (a :: rest)
      simp only [hdw]
      rw [dif_neg hne0]
      rw [ih ((a :: rest).drop (f st (a :: rest)))
        (st ++ (a :: rest).take (f st (a :: rest))) (w + f st (a :: rest))
        (by simp; omega)]
      rw [List.append_assoc, List.take_append_drop]
      congr 1
      simp only [List.length_drop]
      omega

/-- C5: for every write target that accepts only part of each request (at
least one byte of a nonempty request, never more than requested),
`write_device` resumes writing the remainder of the same generated block —
never skipping and never re-generating bytes — so the full block reaches the
device in order (`blockDone` with the device log extended by exactly the
block) before the generator is asked for the next block; consequently one
outer iteration appends exactly the freshly generated block and only then
moves on with the advanced generator. -/
theorem C5_partial_write_resume (f : List Nat → List Nat → Nat)
    (hf1 : ∀ s b, b ≠ [] → 1 ≤ f s b) (hf2 : ∀ s b, f s b ≤ b.length) :
    (∀ (st toWrite : List Nat) (w : Nat),
      writeInner (chunkDevice f) st toWrite w
        = .blockDone (st ++ toWrite) (w + toWrite.length))
    ∧ ∀ (rng : ChaCha12Rng) (st : List Nat) (bs w fuel : Nat),
      write_device (chunkDevice f) rng st bs w (fuel + 1)
        = write_device (chunkDevice f) (rng.fill bs).2 (st ++ (rng.fill bs).1) bs
            (w + (rng.fill bs).1.length) fuel := by
  constructor
  · intro st toWrite w
    exact writeInner_chunk f hf1 hf2 toWrite.length toWrite st w (le_refl _)
  · intro rng st bs w fuel
    rw [write_device]
    rw [writeInner_chunk f hf1 hf2 (rng.fill bs).1.length (rng.fill bs).1 st w (le_refl _)]

theorem C5_witness :
    ((∀ s b, b ≠ ([] : List Nat) → 1 ≤ (fun (_ : List Nat) (b : List Nat) => min 2 b.length) s b)
      ∧ (∀ s b, (fun (_ : List Nat) (b : List Nat) => min 2 b.length) s b ≤ b.length))
    ∧ ((∀ (st toWrite : List Nat) (w : Nat),
        writeInner (chunkDevice (fun _ b => min 2 b.length)) st toWrite w
          = .blockDone (st ++ toWrite) (w + toWrite.length))
      ∧ ∀ (rng : ChaCha12Rng) (st : List Nat) (bs w fuel : Nat),
        write_device (chunkDevice (fun _ b => min 2 b.length)) rng st bs w (fuel + 1)
          = write_device (chunkDevice (fun _ b => min 2 b.length)) (rng.fill bs).2
              (st ++ (rng.fill bs).1) bs (w + (rng.fill bs).1.length) fuel) :=
  ⟨⟨fun s b hb => by
      have : b.length ≠ 0 := fun h => hb (List.eq_nil_of_length_eq_zero h)
      simp
      omega,
    fun s b => by simp⟩,
    C5_partial_write_resume (fun _ b => min 2 b.length)
      (fun s b hb => by
        have : b.length ≠ 0 := fun h => hb (List.eq_nil_of_length_eq_zero h)
        simp
        omega)
      (fun s b => by simp)⟩

theorem writeInner_no28 {σ : Type} (dev : WDevice σ)
    (h28 : ∀ st buf, (dev.write st buf).1 ≠ .error (some 28)) :
    ∀ (n : Nat) (toWrite : List Nat) (s : σ) (w M : Nat) (s2 : σ), toWrite.length ≤ n →
      writeInner dev s toWrite w ≠ .finished (.success M) s2 := by
  intro n
  induction n with
  | zero =>
    intro toWrite s w M s2 hn
    have h0 : toWrite = [] := List.eq_nil_of_length_eq_zero (by omega)
    subst h0
    rw [writeInner_nil]
    simp
  | succ n ih =>
    intro toWrite s w M s2 hn
    cases toWrite with
    | nil =>
      rw [writeInner_nil]
      simp
    | cons a rest =>
      have hbridge : (a :: rest).length = rest.length + 1 := by simp
      rw [writeInner_cons]
      rcases hw : dev.write s (a :: rest) with ⟨res, s3⟩
      rcases res with c | k
      · have hc : c ≠ some 28 := by
          intro h
          subst h
          exact h28 s (a :: rest) (by rw [hw])
        simp only [if_neg hc]
        simp
      · by_cases hk : k = 0
        · subst hk
          simp
        · simp only [dif_neg hk]
          exact ih _ _ _ M s2 (by simp; omega)

theorem write_device_no28 {σ : Type} (dev : WDevice σ)
    (h28 : ∀ st buf, (dev.write st buf).1 ≠ .error (some 28)) :
    ∀ (fuel : Nat) (rng : ChaCha12Rng) (s : σ) (bs w M : Nat) (sF : σ),
      write_device dev rng s bs w fuel ≠ some (.success M, sF) := by
  intro fuel
  induction fuel with
  | zero =>
    intro rng s bs w M sF
    simp [write_device]
  | succ fuel ih =>
    intro rng s bs w M sF
    rw [write_device]
    rcases hwi : writeInner dev s (rng.fill bs).1 w with ⟨s2, w2⟩ | ⟨t, s2⟩
    · exact ih _ _ _ _ M sF
    · intro h
      have hp := Option.some.inj h
      have ht : t = .success M := congrArg Prod.fst hp
      have hs : s2 = sF := congrArg Prod.snd hp
      subst ht
      subst hs
      exact writeInner_no28 dev h28 (rng.fill bs).1.length (rng.fill bs).1 s w M _
        (le_refl _) hwi

/-- C4: `write_device` terminates successfully exactly on the out-of-space
signal (raw OS error code 28): (i) against any device that never raises
error 28, no run ever returns `success`; (ii) against the simulated device
that raises error 28 after accepting exactly M bytes, the run performs the
durability sync and returns `success M` with the device synced; (iii) a
zero-length successful write is instead the fatal `noProgress` with the byte
count attached; (iv) any other write error is the fatal `otherError` carrying
the error code and the byte count. -/
theorem C4_out_of_space_termination (σ : Type) (dev : WDevice σ) (M bs fuel : Nat)
    (f : Nat → Nat) (c : Option Nat) (hbs : 1 ≤ bs) (hfuel : M < fuel * bs)
    (hc : c ≠ some 28) :
    ((∀ st buf, (dev.write st buf).1 ≠ .error (some 28)) →
      ∀ (rng : ChaCha12Rng) (s : σ) (w M2 : Nat) (sF : σ) (fl : Nat),
        write_device dev rng s bs w fl ≠ some (.success M2, sF))
    ∧ write_device (capDevice M (.error (some 28))) ⟨f, 0⟩ ⟨[], false⟩ bs 0 fuel
        = some (.success M, ⟨streamTake f M, true⟩)
    ∧ write_device (capDevice M (.ok 0)) ⟨f, 0⟩ ⟨[], false⟩ bs 0 fuel
        = some (.noProgress M, ⟨streamTake f M, false⟩)
    ∧ write_device (capDevice M (.error c)) ⟨f, 0⟩ ⟨[], false⟩ bs 0 fuel
        = some (.otherError c M, ⟨streamTake f M, false⟩) := by
  refine ⟨?_, ?_, ?_, ?_⟩
  · intro h28 rng s w M2 sF fl
    exact write_device_no28 dev h28 fl rng s bs w M2 sF
  · have h := write_device_cap M bs (.error (some 28)) (Or.inr ⟨some 28, rfl⟩) hbs fuel
      f 0 (by omega) (by omega)
    simpa [capLoopResult, capLoopFinal, streamTake_zero] using h
  · have h := write_device_cap M bs (.ok 0) (Or.inl rfl) hbs fuel f 0 (by omega) (by omega)
    simpa [capLoopResult, capLoopFinal, streamTake_zero] using h
  · have h := write_device_cap M bs (.error c) (Or.inr ⟨c, rfl⟩) hbs fuel f 0
      (by omega) (by omega)
    simpa [capLoopResult, capLoopFinal, streamTake_zero, hc] using h

theorem C4_witness :
    ((1 : Nat) ≤ 2 ∧ 5 < 4 * 2 ∧ (none : Option Nat) ≠ some 28)
    ∧ (((∀ st buf, ((capDevice 5 (.ok 0)).write st buf).1 ≠ .error (some 28)) →
        ∀ (rng : ChaCha12Rng) (s : SimDisk) (w M2 : Nat) (sF : SimDisk) (fl : Nat),
          write_device (capDevice 5 (.ok 0)) rng s 2 w fl ≠ some (.success M2, sF))
      ∧ write_device (capDevice 5 (.error (some 28))) ⟨fun i => i, 0⟩ ⟨[], false⟩ 2 0 4
          = some (.success 5, ⟨streamTake (fun i => i) 5, true⟩)
      ∧ write_device (capDevice 5 (.ok 0)) ⟨fun i => i, 0⟩ ⟨[], false⟩ 2 0 4
          = some (.noProgress 5, ⟨streamTake (fun i => i) 5, false⟩)
      ∧ write_device (capDevice 5 (.error none)) ⟨fun i => i, 0⟩ ⟨[], false⟩ 2 0 4
          = some (.otherError none 5, ⟨streamTake (fun i => i) 5, false⟩)) :=
  ⟨⟨by decide, by decide, by decide⟩,
    C4_out_of_space_termination SimDisk (capDevice 5 (.ok 0)) 5 2 4 (fun i => i) none
      (by decide) (by decide) (by decide)⟩

/-- C9: against the simulated block device, the bytes delivered to the
device are exactly the stream prefix of length equal to the byte count:
when out-of-space interrupts a block midway, the drain loop returns `success`
counting the partially written bytes of that final block and the device holds
precisely that prefix (third clause), and a full run from a fresh device ends
with `success cap` and the device holding exactly the cap-byte stream prefix
even when cap is not a multiple of the block size (first clause). -/
theorem C9_stream_prefix_invariant (f : Nat → Nat) (cap bs fuel : Nat) (hbs : 1 ≤ bs)
    (hfuel : cap < fuel * bs) :
    write_device (blockDevice cap) ⟨f, 0⟩ ⟨[], false⟩ bs 0 fuel
      = some (.success cap, ⟨streamTake f cap, true⟩)
    ∧ (streamTake f cap).length = cap
    ∧ ∀ (d toW : List Nat) (w : Nat), d.length < cap → cap < d.length + toW.length →
        writeInner (blockDevice cap) ⟨d, false⟩ toW w
          = .finished (.success (w + (cap - d.length)))
              ⟨d ++ toW.take (cap - d.length), true⟩ := by
  refine ⟨?_, streamTake_length f cap, ?_⟩
  · have h := write_device_cap cap bs (.error (some 28)) (Or.inr ⟨some 28, rfl⟩) hbs fuel
      f 0 (by omega) (by omega)
    simpa [blockDevice, capLoopResult, capLoopFinal, streamTake_zero] using h
  · intro d toW w h1 h2
    have h := writeInner_cap_straddle cap (.error (some 28)) ⟨d, false⟩ toW w
      (Or.inr ⟨some 28, rfl⟩) h1 h2
    simpa [blockDevice, capFinish] using h

theorem C9_witness :
    ((1 : Nat) ≤ 2 ∧ 5 < 4 * 2)
    ∧ (write_device (blockDevice 5) ⟨fun i => i + 1, 0⟩ ⟨[], false⟩ 2 0 4
        = some (.success 5, ⟨streamTake (fun i => i + 1) 5, true⟩)
      ∧ (streamTake (fun i => i + 1) 5).length = 5
      ∧ ∀ (d toW : List Nat) (w : Nat), d.length < 5 → 5 < d.length + toW.length →
          writeInner (blockDevice 5) ⟨d, false⟩ toW w
            = .finished (.success (w + (5 - d.length)))
                ⟨d ++ toW.take (5 - d.length), true⟩) :=
  ⟨⟨by decide, by decide⟩,
    C9_stream_prefix_invariant (fun i => i + 1) 5 2 4 (by decide) (by decide)⟩

/-! ### Seed resolution -/

theorem sha256_length (msg : List Nat) : (sha256 msg).length = 32 := by
  simp [sha256]

theorem hexDecode_cons (b0 b1 : Nat) (rest : List Nat) :
    hexDecode (b0 :: b1 :: rest)
      = match hexVal b0, hexVal b1, hexDecode rest with
        | some hi, some lo, some tl => some ((hi * 16 + lo) :: tl)
        | _, _, _ => none := rfl

theorem hexDecode_some_length : ∀ (l bs2 : List Nat), hexDecode l = some bs2 →
    l.length = 2 * bs2.length
  | [], bs2 => by
    intro h
    simp [hexDecode] at h
    subst h
    simp
  | [_], bs2 => by
    intro h
    simp [hexDecode] at h
  | b0 :: b1 :: rest, bs2 => by
    intro h
    rcases h0 : hexVal b0 with _ | v0 <;> rcases h1 : hexVal b1 with _ | v1 <;>
      rcases h2 : hexDecode rest with _ | tl <;>
        simp only [hexDecode_cons, h0, h1, h2] at h <;> try simp at h
    have hrec := hexDecode_some_length rest tl h2
    subst h
    simp
    omega

theorem hexDecode_none_iff : ∀ (l : List Nat), l.length % 2 = 0 →
    (hexDecode l = none ↔ ∃ b ∈ l, hexVal b = none)
  | [] => by
    intro _
    simp [hexDecode]
  | [_] => by
    intro h
    simp at h
  | b0 :: b1 :: rest => by
    intro h
    have hrest : rest.length % 2 = 0 := by
      simp at h
      omega
    have ih := hexDecode_none_iff rest hrest
    constructor
    · intro hnone
      rcases h0 : hexVal b0 with _ | v0
      · exact ⟨b0, by simp, h0⟩
      rcases h1 : hexVal b1 with _ | v1
      · exact ⟨b1, by simp, h1⟩
      rcases h2 : hexDecode rest with _ | tl
      · obtain ⟨b, hb, hbn⟩ := ih.mp h2
        exact ⟨b, by simp [hb], hbn⟩
      · rw [hexDecode_cons] at hnone
        simp only [h0, h1, h2] at hnone
        exact absurd hnone (by simp)
    · rintro ⟨b, hb, hbn⟩
      rcases h0 : hexVal b0 with _ | v0
      · rcases h1 : hexVal b1 with _ | v1 <;> rcases h2 : hexDecode rest with _ | tl <;>
          simp only [hexDecode_cons, h0, h1, h2]
      rcases h1 : hexVal b1 with _ | v1
      · rcases h2 : hexDecode rest with _ | tl <;>
          simp only [hexDecode_cons, h0, h1, h2]
      rcases h2 : hexDecode rest with _ | tl
      · simp only [hexDecode_cons, h0, h1, h2]
      · -- all decode: the non-hex byte must still be somewhere, contradiction
        exfalso
        simp at hb
        rcases hb with rfl | rfl | hbr
        · exact absurd h0 (by simp [hbn])
        · exact absurd h1 (by simp [hbn])
        · have : hexDecode rest = none := ih.mpr ⟨b, hbr, hbn⟩
          rw [this] at h2
          exact absurd h2 (by simp)

/-- C6: `get_seed` returns an error exactly when (i) both a passphrase seed
and a raw hex seed are supplied, (ii) a raw seed is supplied whose length is
not exactly 64, (iii) a raw seed is supplied containing a non-hexadecimal
byte, or (iv) neither input is supplied and the run reads but does not
write; in every other case it returns a 32-byte seed: the SHA-256 hash of
the passphrase when a passphrase is given, the hex-decoded bytes when a
valid raw seed is given. -/
theorem C6_get_seed_contract (args : Args) (rand : List Nat) (hrand : rand.length = 32) :
    ((∃ e, get_seed args rand = .error e) ↔
      ((args.seed.isSome ∧ args.raw_seed.isSome)
      ∨ (∃ r, args.raw_seed = some r ∧ r.length ≠ 64)
      ∨ (∃ r, args.raw_seed = some r ∧ ∃ b ∈ r, hexVal b = none)
      ∨ (args.seed = none ∧ args.raw_seed = none ∧ args.write = false ∧ args.read = true)))
    ∧ (∀ s, get_seed args rand = .ok s → s.length = 32)
    ∧ (∀ p, args.seed = some p → args.raw_seed = none → get_seed args rand = .ok (sha256 p))
    ∧ (∀ r bs2, args.seed = none → args.raw_seed = some r → r.length = 64 →
        hexDecode r = some bs2 → get_seed args rand = .ok bs2) := by
  rcases args with ⟨oseed, oraw, w, rd⟩
  rcases oseed with _ | p
  · rcases oraw with _ | r
    · cases w <;> cases rd
      · refine ⟨?_, ?_, ?_, ?_⟩
        · constructor
          · rintro ⟨e, he⟩
            exact absurd he (by simp [get_seed])
          · rintro (⟨h1, _⟩ | ⟨r2, hr2, _⟩ | ⟨r2, hr2, _⟩ | ⟨_, _, _, hrd⟩)
            · simp at h1
            · simp at hr2
            · simp at hr2
            · simp at hrd
        · intro s hs
          have hgs : get_seed ⟨none, none, false, false⟩ rand = .ok rand := rfl
          rw [hgs] at hs
          rw [← Except.ok.inj hs]
          exact hrand
        · intro p2 hp2 _
          simp at hp2
        · intro r2 bs2 _ hraw _ _
          simp at hraw
      · refine ⟨?_, ?_, ?_, ?_⟩
        · constructor
          · intro _
            exact Or.inr (Or.inr (Or.inr ⟨rfl, rfl, rfl, rfl⟩))
          · intro _
            exact ⟨.randomRequiresWrite, rfl⟩
        · intro s hs
          exact absurd hs (by simp [get_seed])
        · intro p2 hp2 _
          simp at hp2
        · intro r2 bs2 _ hraw _ _
          simp at hraw
      · refine ⟨?_, ?_, ?_, ?_⟩
        · constructor
          · rintro ⟨e, he⟩
            exact absurd he (by simp [get_seed])
          · rintro (⟨h1, _⟩ | ⟨r2, hr2, _⟩ | ⟨r2, hr2, _⟩ | ⟨_, _, hw, _⟩)
            · simp at h1
            · simp at hr2
            · simp at hr2
            · simp at hw
        · intro s hs
          have hgs : get_seed ⟨none, none, true, false⟩ rand = .ok rand := rfl
          rw [hgs] at hs
          rw [← Except.ok.inj hs]
          exact hrand
        · intro p2 hp2 _
          simp at hp2
        · intro r2 bs2 _ hraw _ _
          simp at hraw
      · refine ⟨?_, ?_, ?_, ?_⟩
        · constructor
          · rintro ⟨e, he⟩
            exact absurd he (by simp [get_seed])
          · rintro (⟨h1, _⟩ | ⟨r2, hr2, _⟩ | ⟨r2, hr2, _⟩ | ⟨_, _, hw, _⟩)
            · simp at h1
            · simp at hr2
            · simp at hr2
            · simp at hw
        · intro s hs
          have hgs : get_seed ⟨none, none, true, true⟩ rand = .ok rand := rfl
          rw [hgs] at hs
          rw [← Except.ok.inj hs]
          exact hrand
        · intro p2 hp2 _
          simp at hp2
        · intro r2 bs2 _ hraw _ _
          simp at hraw
    · by_cases hlen : r.length = 64
      · rcases hdec : hexDecode r with _ | buf
        · have hgs : get_seed ⟨none, some r, w, rd⟩ rand = .error .invalidHex := by
            simp [get_seed, hlen, hdec]
          refine ⟨?_, ?_, ?_, ?_⟩
          · constructor
            · intro _
              have heven : r.length % 2 = 0 := by omega
              obtain ⟨b, hb, hbn⟩ := (hexDecode_none_iff r heven).mp hdec
              exact Or.inr (Or.inr (Or.inl ⟨r, rfl, b, hb, hbn⟩))
            · intro _
              exact ⟨.invalidHex, hgs⟩
          · intro s hs
            rw [hgs] at hs
            exact absurd hs (by simp)
          · intro p2 hp2 _
            simp at hp2
          · intro r2 bs2 _ hraw _ hdec2
            obtain rfl : r = r2 := Option.some.inj hraw
            rw [hdec] at hdec2
            exact absurd hdec2 (by simp)
        · have hgs : get_seed ⟨none, some r, w, rd⟩ rand = .ok buf := by
            simp [get_seed, hlen, hdec]
          refine ⟨?_, ?_, ?_, ?_⟩
          · constructor
            · rintro ⟨e, he⟩
              rw [hgs] at he
              exact absurd he (by simp)
            · rintro (⟨h1, _⟩ | ⟨r2, hr2, hl2⟩ | ⟨r2, hr2, b, hb, hbn⟩ | ⟨_, hr0, _⟩)
              · simp at h1
              · obtain rfl : r = r2 := Option.some.inj hr2
                exact absurd hlen hl2
              · obtain rfl : r = r2 := Option.some.inj hr2
                have heven : r.length % 2 = 0 := by omega
                have hdn : hexDecode r = none :=
                  (hexDecode_none_iff r heven).mpr ⟨b, hb, hbn⟩
                rw [hdec] at hdn
                exact absurd hdn (by simp)
              · simp at hr0
          · intro s hs
            rw [hgs] at hs
            obtain rfl : buf = s := Except.ok.inj hs
            have := hexDecode_some_length r buf hdec
            omega
          · intro p2 hp2 _
            simp at hp2
          · intro r2 bs2 _ hraw _ hdec2
            obtain rfl : r = r2 := Option.some.inj hraw
            rw [hdec] at hdec2
            obtain rfl : buf = bs2 := Option.some.inj hdec2
            exact hgs
      · have hgs : get_seed ⟨none, some r, w, rd⟩ rand
            = .error (.invalidLength r.length) := by
          simp [get_seed, hlen]
        refine ⟨?_, ?_, ?_, ?_⟩
        · constructor
          · intro _
            exact Or.inr (Or.inl ⟨r, rfl, hlen⟩)
          · intro _
            exact ⟨.invalidLength r.length, hgs⟩
        · intro s hs
          rw [hgs] at hs
          exact absurd hs (by simp)
        · intro p2 hp2 _
          simp at hp2
        · intro r2 bs2 _ hraw hlen2 _
          obtain rfl : r = r2 := Option.some.inj hraw
          exact absurd hlen2 hlen
  · rcases oraw with _ | r
    · have hgs : get_seed ⟨some p, none, w, rd⟩ rand = .ok (sha256 p) := rfl
      refine ⟨?_, ?_, ?_, ?_⟩
      · constructor
        · rintro ⟨e, he⟩
          rw [hgs] at he
          exact absurd he (by simp)
        · rintro (⟨_, h2⟩ | ⟨r2, hr2, _⟩ | ⟨r2, hr2, _⟩ | ⟨hs0, _⟩)
          · simp at h2
          · simp at hr2
          · simp at hr2
          · simp at hs0
      · intro s hs
        rw [hgs] at hs
        rw [← Except.ok.inj hs]
        exact sha256_length p
      · intro p2 hp2 _
        obtain rfl : p = p2 := Option.some.inj hp2
        exact hgs
      · intro r2 bs2 hseed _ _ _
        simp at hseed
    · have hgs : get_seed ⟨some p, some r, w, rd⟩ rand = .error .conflicting := rfl
      refine ⟨?_, ?_, ?_, ?_⟩
      · constructor
        · intro _
          exact Or.inl ⟨by simp, by simp⟩
        · intro _
          exact ⟨.conflicting, hgs⟩
      · intro s hs
        rw [hgs] at hs
        exact absurd hs (by simp)
      · intro p2 _ hraw
        simp at hraw
      · intro r2 bs2 hseed _ _ _
        simp at hseed

theorem C6_witness :
    ((List.replicate (32 : Nat) (0 : Nat)).length = 32)
    ∧ (((∃ e, get_seed ⟨none, none, true, true⟩ (List.replicate 32 0) = .error e) ↔
        (((none : Option (List Nat)).isSome ∧ (none : Option (List Nat)).isSome)
        ∨ (∃ r, (none : Option (List Nat)) = some r ∧ r.length ≠ 64)
        ∨ (∃ r, (none : Option (List Nat)) = some r ∧ ∃ b ∈ r, hexVal b = none)
        ∨ ((none : Option (List Nat)) = none ∧ (none : Option (List Nat)) = none
            ∧ true = false ∧ true = true)))
      ∧ (∀ s, get_seed ⟨none, none, true, true⟩ (List.replicate 32 0) = .ok s →
          s.length = 32)
      ∧ (∀ p, (none : Option (List Nat)) = some p → (none : Option (List Nat)) = none →
          get_seed ⟨none, none, true, true⟩ (List.replicate 32 0) = .ok (sha256 p))
      ∧ (∀ r bs2, (none : Option (List Nat)) = none → (none : Option (List Nat)) = some r →
          r.length = 64 → hexDecode r = some bs2 →
          get_seed ⟨none, none, true, true⟩ (List.replicate 32 0) = .ok bs2)) :=
  ⟨by simp, C6_get_seed_contract ⟨none, none, true, true⟩ (List.replicate 32 0) (by simp)⟩

/-- C7: after each phase, a byte-count discrepancy is fatal and carries the
two conflicting counts: the run is ok exactly when every requested phase's
count equals the measured disk size; if the write phase ran and its count
differs from the disk size the run fails naming those two counts; if the read
phase ran and its count differs from the disk size the run fails; and if both
phases ran and the written count differs from the read count the run fails
(at least one of the two counts must then differ from the disk size). -/
theorem C7_byte_count_checks (w r : Bool) (written readBytes disk : Nat) :
    (mainChecks w r written readBytes disk = .ok ()
      ↔ ((w = true → written = disk) ∧ (r = true → readBytes = disk)))
    ∧ (w = true → written ≠ disk →
        mainChecks w r written readBytes disk = .error (.writeCountMismatch written disk))
    ∧ (r = true → readBytes ≠ disk →
        ∃ e, mainChecks w r written readBytes disk = .error e)
    ∧ (w = true → r = true → written ≠ readBytes →
        ∃ e, mainChecks w r written readBytes disk = .error e) := by
  simp only [mainChecks]
  refine ⟨?_, ?_, ?_, ?_⟩
  · constructor
    · intro hok
      by_cases h1 : w = true ∧ written ≠ disk
      · rw [if_pos h1] at hok
        exact absurd hok (by simp)
      · by_cases h2 : r = true ∧ readBytes ≠ disk
        · rw [if_neg h1, if_pos h2] at hok
          exact absurd hok (by simp)
        · constructor
          · intro hw
            by_contra hne
            exact h1 ⟨hw, hne⟩
          · intro hr
            by_contra hne
            exact h2 ⟨hr, hne⟩
    · rintro ⟨hw, hr⟩
      rw [if_neg (by tauto), if_neg (by tauto)]
  · intro hw hne
    rw [if_pos ⟨hw, hne⟩]
  · intro hr hne
    by_cases h1 : w = true ∧ written ≠ disk
    · exact ⟨.writeCountMismatch written disk, by rw [if_pos h1]⟩
    · exact ⟨.readCountMismatch readBytes disk, by rw [if_neg h1, if_pos ⟨hr, hne⟩]⟩
  · intro hw hr hne
    by_cases hwd : written = disk
    · have hrd : readBytes ≠ disk := by omega
      by_cases h1 : w = true ∧ written ≠ disk
      · exact ⟨.writeCountMismatch written disk, by rw [if_pos h1]⟩
      · exact ⟨.readCountMismatch readBytes disk, by rw [if_neg h1, if_pos ⟨hr, hrd⟩]⟩
    · exact ⟨.writeCountMismatch written disk, by rw [if_pos ⟨hw, hwd⟩]⟩

theorem C7_witness :
    (mainChecks true true 5 3 5 = .ok ()
      ↔ ((true = true → 5 = 5) ∧ (true = true → 3 = 5)))
    ∧ (true = true → 5 ≠ 5 →
        mainChecks true true 5 3 5 = .error (.writeCountMismatch 5 5))
    ∧ (true = true → 3 ≠ 5 → ∃ e, mainChecks true true 5 3 5 = .error e)
    ∧ (true = true → true = true → 5 ≠ 3 → ∃ e, mainChecks true true 5 3 5 = .error e) :=
  C7_byte_count_checks true true 5 3 5

/-- C10: when neither the write flag nor the read flag is requested, `_main`
enables both before resolving the seed; consequently the
`randomRequiresWrite` rejection can only trigger when reading was explicitly
requested without writing, and a run with no mode flags and no seed inputs
obtains the random seed and proceeds with both phases enabled. -/
theorem C10_default_both_phases (a : Args) (rand : List Nat) :
    ((a.write = false ∧ a.read = false) →
      (defaultFlags a).write = true ∧ (defaultFlags a).read = true)
    ∧ (get_seed (defaultFlags a) rand = .error .randomRequiresWrite →
        a.write = false ∧ a.read = true)
    ∧ (a.write = false → a.read = false → a.seed = none → a.raw_seed = none →
        get_seed (defaultFlags a) rand = .ok rand
        ∧ (defaultFlags a).write = true ∧ (defaultFlags a).read = true) := by
  rcases a with ⟨oseed, oraw, w, rd⟩
  refine ⟨?_, ?_, ?_⟩
  · rintro ⟨hw, hr⟩
    subst hw
    subst hr
    simp [defaultFlags]
  · intro herr
    cases w <;> cases rd
    · exfalso
      have hdf : defaultFlags ⟨oseed, oraw, false, false⟩ = ⟨oseed, oraw, true, true⟩ := by
        simp [defaultFlags]
      rw [hdf] at herr
      rcases oseed with _ | p <;> rcases oraw with _ | r
      · simp [get_seed] at herr
      · by_cases hlen : r.length = 64
        · rcases hdec : hexDecode r with _ | buf
          · simp [get_seed, hlen, hdec] at herr
          · simp [get_seed, hlen, hdec] at herr
        · simp [get_seed, hlen] at herr
      · simp [get_seed] at herr
      · simp [get_seed] at herr
    · exact ⟨rfl, rfl⟩
    · exfalso
      have hdf : defaultFlags ⟨oseed, oraw, true, false⟩ = ⟨oseed, oraw, true, false⟩ := by
        simp [defaultFlags]
      rw [hdf] at herr
      rcases oseed with _ | p <;> rcases oraw with _ | r
      · simp [get_seed] at herr
      · by_cases hlen : r.length = 64
        · rcases hdec : hexDecode r with _ | buf
          · simp [get_seed, hlen, hdec] at herr
          · simp [get_seed, hlen, hdec] at herr
        · simp [get_seed, hlen] at herr
      · simp [get_seed] at herr
      · simp [get_seed] at herr
    · exfalso
      have hdf : defaultFlags ⟨oseed, oraw, true, true⟩ = ⟨oseed, oraw, true, true⟩ := by
        simp [defaultFlags]
      rw [hdf] at herr
      rcases oseed with _ | p <;> rcases oraw with _ | r
      · simp [get_seed] at herr
      · by_cases hlen : r.length = 64
        · rcases hdec : hexDecode r with _ | buf
          · simp [get_seed, hlen, hdec] at herr
          · simp [get_seed, hlen, hdec] at herr
        · simp [get_seed, hlen] at herr
      · simp [get_seed] at herr
      · simp [get_seed] at herr
  · intro hw hr hs hraw
    subst hw
    subst hr
    subst hs
    subst hraw
    refine ⟨?_, by simp [defaultFlags], by simp [defaultFlags]⟩
    have hdf : defaultFlags ⟨none, none, false, false⟩ = ⟨none, none, true, true⟩ := by
      simp [defaultFlags]
    rw [hdf]
    rfl

theorem C10_witness :
    (((false = false ∧ false = false) →
        (defaultFlags ⟨none, none, false, false⟩).write = true
        ∧ (defaultFlags ⟨none, none, false, false⟩).read = true)
    ∧ (get_seed (defaultFlags ⟨none, none, false, false⟩) [5]
          = .error .randomRequiresWrite → false = false ∧ false = true)
    ∧ (false = false → false = false → (none : Option (List Nat)) = none →
        (none : Option (List Nat)) = none →
        get_seed (defaultFlags ⟨none, none, false, false⟩) [5] = .ok [5]
        ∧ (defaultFlags ⟨none, none, false, false⟩).write = true
        ∧ (defaultFlags ⟨none, none, false, false⟩).read = true)) :=
  C10_default_both_phases ⟨none, none, false, false⟩ [5]
